import Mathlib

/-!
Verification of the Hikvision camera adapter (`unifi/cams/hikvision.py`).

The development shallowly embeds the adapter's pure logic:
* the Python exceptions that cross the functions' boundaries (`PyExc`),
* the PTZ unit conversions of `get_video_settings` / `change_video_settings`
  (Python true division followed by `int()` truncation is modelled on `ℚ`
  by `pyint`),
* the snapshot fetch `get_snapshot` (filesystem as a map from paths to
  byte lists, the device response as an `Except`),
* the PTZ capability probe `check_ptz_support` and the constructor,
* the motion debouncer `_trigger_motion_start` / `_trigger_motion_stop`
  (an integer counter plus per-signal stop-timers), together with a timed
  event semantics: a run processes a time-sorted serialization of signal
  events and of the stop-timer events they schedule.
-/

namespace Hikvision

/-- Python exceptions relevant to the adapter: `requests.exceptions.HTTPError`
(raised by the client on an HTTP error status), other request failures such as
`requests.exceptions.ConnectionError` (unreachable host), and
`unifi.core.RetryableError` (imported by the module but never raised in it). -/
inductive PyExc where
  | httpError
  | connectionError
  | retryableError
deriving DecidableEq, Repr

/-- Python `int()` applied to a (true-division) quotient: truncation toward
zero. On the magnitudes used by the adapter the CPython float quotient is
correctly rounded and never crosses an integer boundary, so the exact
rational semantics used here agrees with the code. -/
def pyint (q : ℚ) : ℤ := if q < 0 then -⌊-q⌋ else ⌊q⌋

/-- The normalized video-settings triple handled by `get_video_settings` and
`change_video_settings` (the host's 0–100 encoding). -/
structure Telemetry where
  brightness : ℤ
  contrast : ℤ
  hue : ℤ
deriving DecidableEq, Repr

/-- The fields of `PTZStatus.AbsoluteHigh` read by `get_video_settings`. -/
structure PTZStatus where
  azimuth : ℤ
  elevation : ℤ
  absoluteZoom : ℤ
deriving DecidableEq, Repr

/-- The fields of the `PTZData.AbsoluteHigh` request body written by
`change_video_settings`. -/
structure PTZData where
  absoluteZoom : ℤ
  azimuth : ℤ
  elevation : ℤ
deriving DecidableEq, Repr

/-- The conversion performed by `HikvisionCam.get_video_settings` on the
device's PTZ status (lines 67–74): `brightness = int(100 * azimuth / 3600)`,
`contrast = int(100 * azimuth / 3600)`, `hue = int(100 * absoluteZoom / 40)`.
Both `brightness` and `contrast` are computed from `r["azimuth"]`;
`r["elevation"]` is never read. -/
def get_video_settings_conv (r : PTZStatus) : Telemetry :=
  { brightness := pyint ((100 * r.azimuth : ℚ) / 3600)
    contrast := pyint ((100 * r.azimuth : ℚ) / 3600)
    hue := pyint ((100 * r.absoluteZoom : ℚ) / 40) }

/-- The conversion performed by `HikvisionCam.change_video_settings`
(lines 79–81): `tilt = int((900 * brightness) / 100)`,
`pan = int((3600 * contrast) / 100)`, `zoom = int((40 * hue) / 100)`,
assembled into the `PTZData` request body. -/
def change_video_settings_conv (options : Telemetry) : PTZData :=
  { absoluteZoom := pyint ((40 * options.hue : ℚ) / 100)
    azimuth := pyint ((3600 * options.contrast : ℚ) / 100)
    elevation := pyint ((900 * options.brightness : ℚ) / 100) }

/-- `HikvisionCam.get_video_settings` including the `ptz_supported` gate:
the returned dictionary (`none` models the empty dict returned when PTZ is
unsupported) together with the number of device requests issued. -/
def get_video_settings (ptz_supported : Bool) (r : PTZStatus) :
    Option Telemetry × ℕ :=
  if ptz_supported then (some (get_video_settings_conv r), 1) else (none, 0)

/-- `HikvisionCam.change_video_settings` including the `ptz_supported` gate:
the PTZ request body sent to the device (`none` when nothing is sent)
together with the number of device requests issued. -/
def change_video_settings (ptz_supported : Bool) (options : Telemetry) :
    Option PTZData × ℕ :=
  if ptz_supported then (some (change_video_settings_conv options), 1)
  else (none, 0)

/-- The spec's write-direction rounding, modelled from its words
"round-half-up": `round(q) = ⌊q + 1/2⌋`. Used only to compare the spec's
claimed formula with what the code computes. -/
def spec_round_half_up (q : ℚ) : ℤ := ⌊q + 1 / 2⌋

/-- `HikvisionCam.check_ptz_support` (lines 53–60): probes the PTZ
capabilities endpoint; `requests.exceptions.HTTPError` is caught and turned
into `false`, every other exception propagates. -/
def check_ptz_support (probe : Except PyExc Unit) : Except PyExc Bool :=
  match probe with
  | .ok _ => .ok true
  | .error .httpError => .ok false
  | .error e => .error e

/-- The debouncer's timeout: `self.motion_timeout = 5` seconds (line 25). -/
def motion_timeout : ℚ := 5

/-- The adapter state assembled by `HikvisionCam.__init__` (lines 21–31):
a fresh temporary snapshot directory, the 5-second motion timeout, the
zeroed motion counter, and the PTZ support flag from `check_ptz_support`. -/
structure HikvisionCamState where
  snapshot_dir : String
  timeout : ℚ
  motion_counter : ℤ
  ptz_supported : Bool
deriving Repr

/-- `HikvisionCam.__init__`: runs `check_ptz_support` last; if the probe
propagates an exception, the constructor raises and no adapter state is
produced. -/
def hikvision_init (snapshot_dir : String) (probe : Except PyExc Unit) :
    Except PyExc HikvisionCamState :=
  match check_ptz_support probe with
  | .ok b => .ok ⟨snapshot_dir, motion_timeout, 0, b⟩
  | .error e => .error e

/-- The outcome of one `HikvisionCam.get_snapshot` call: the returned path
(or the propagated exception), the filesystem after the call (a map from
paths to byte contents), and the number of HTTP requests issued. -/
structure SnapResult where
  result : Except PyExc String
  fs : String → List ℕ
  requests : ℕ

/-- `HikvisionCam.get_snapshot` (lines 41–51): computes the fixed path
`Path(self.snapshot_dir, "screen.jpg")`, issues a single GET (no retry, no
exception handler: a failure propagates unchanged), and on success opens the
file with mode "wb" (truncating) and writes every non-empty chunk of the
response body in order. -/
def get_snapshot (snapshot_dir : String) (fs : String → List ℕ)
    (resp : Except PyExc (List (List ℕ))) : SnapResult :=
  let img_file := snapshot_dir ++ "/screen.jpg"
  match resp with
  | .error e => ⟨.error e, fs, 1⟩
  | .ok chunks =>
      ⟨.ok img_file,
        fun p =>
          if p = img_file then ((chunks.filter (fun c => c ≠ [])).flatten)
          else fs p,
        1⟩

/-- The counter action of `HikvisionCam._trigger_motion_start`
(lines 107–112), with the callback assumed not to raise: returns the new
`motion_counter` and whether `trigger_motion_start()` was awaited (which
happens exactly when the counter was 0). The increment and the scheduling of
a stop-timer `motion_timeout` later follow the callback. -/
def trigger_motion_start_step (c : ℤ) : ℤ × Bool :=
  (c + 1, c == 0)

/-- The counter action of `HikvisionCam._trigger_motion_stop`
(lines 114–119): decrements `motion_counter`; if the result is ≤ 0 it is
clamped to 0 and `trigger_motion_stop()` is awaited. -/
def trigger_motion_stop_step (c : ℤ) : ℤ × Bool :=
  if c - 1 ≤ 0 then (0, true) else (c - 1, false)

/-- Outcome of `_trigger_motion_start` when the awaited host callback
`trigger_motion_start()` may raise: the resulting `motion_counter`, whether
the stop-timer was scheduled by `loop.call_later`, and whether an exception
propagated out of the coroutine. -/
structure StartOutcome where
  motion_counter : ℤ
  timer_scheduled : Bool
  raised : Bool
deriving DecidableEq, Repr

/-- `_trigger_motion_start` with a possibly-raising callback. The callback
is awaited first (only when the counter is 0); if it raises, the exception
propagates before `self.motion_counter += 1` and before
`self.loop.call_later(...)` run, so neither happens. -/
def trigger_motion_start_exc (c : ℤ) (raises : Bool) : StartOutcome :=
  if c = 0 then
    if raises then ⟨c, false, true⟩
    else ⟨c + 1, true, false⟩
  else ⟨c + 1, true, false⟩

/-- Outcome of `_trigger_motion_stop` when the awaited host callback
`trigger_motion_stop()` may raise. -/
structure StopOutcome where
  motion_counter : ℤ
  raised : Bool
deriving DecidableEq, Repr

/-- `_trigger_motion_stop` with a possibly-raising callback. The decrement
and the clamp precede the `await`, so the counter update happens whether or
not the callback raises. -/
def trigger_motion_stop_exc (c : ℤ) (raises : Bool) : StopOutcome :=
  if c - 1 ≤ 0 then ⟨0, raises⟩ else ⟨c - 1, false⟩

/-- A step of the serialized debouncer schedule, counter view only:
an increment (`_trigger_motion_start`) or a decrement
(`_trigger_motion_stop`). -/
inductive MStep where
  | inc
  | dec
deriving DecidableEq, Repr

/-- Runs a serialized sequence of debouncer steps on the counter, using the
two counter actions from the code. -/
def runSteps (c : ℤ) : List MStep → ℤ
  | [] => c
  | .inc :: l => runSteps (trigger_motion_start_step c).1 l
  | .dec :: l => runSteps (trigger_motion_stop_step c).1 l

/-- An event processed by the debouncer's scheduler, tagged with its time:
either a raw motion signal handed over by the worker thread (which runs
`_trigger_motion_start`), or the firing of the stop-timer that a signal
scheduled (which runs `_trigger_motion_stop`). -/
inductive Ev where
  | sig (t : ℚ)
  | timer (t : ℚ)
deriving DecidableEq, Repr

/-- The time at which an event is processed. -/
def Ev.time : Ev → ℚ
  | .sig t => t
  | .timer t => t

/-- Projects a signal event to its time. -/
def sigTime : Ev → Option ℚ
  | .sig t => some t
  | .timer _ => none

/-- Projects a stop-timer event to its firing time. -/
def timerTime : Ev → Option ℚ
  | .timer t => some t
  | .sig _ => none

/-- An upward callback observed by the host: `trigger_motion_start()` or
`trigger_motion_stop()`, tagged with the time of the event that caused it. -/
inductive Out where
  | start (t : ℚ)
  | stop (t : ℚ)
deriving DecidableEq, Repr

/-- Processing of one scheduled event by the debouncer: a signal runs
`_trigger_motion_start`, a stop-timer firing runs `_trigger_motion_stop`.
Returns the new counter and the callbacks fired. -/
def stepEv (c : ℤ) : Ev → ℤ × List Out
  | .sig t =>
      ((trigger_motion_start_step c).1,
        if (trigger_motion_start_step c).2 then [Out.start t] else [])
  | .timer t =>
      ((trigger_motion_stop_step c).1,
        if (trigger_motion_stop_step c).2 then [Out.stop t] else [])

/-- Runs a serialized schedule of events, accumulating the callbacks fired
in order. -/
def runEv (c : ℤ) : List Ev → ℤ × List Out
  | [] => (c, [])
  | e :: es =>
      let s := stepEv c e
      let r := runEv s.1 es
      (r.1, s.2 ++ r.2)

/-- Number of signal events in a schedule. -/
def nsig (es : List Ev) : ℕ := (es.filterMap sigTime).length

/-- Number of stop-timer events in a schedule. -/
def ntim (es : List Ev) : ℕ := (es.filterMap timerTime).length

/-! ## Supporting lemmas -/

theorem pyint_intCast (n : ℤ) : pyint (n : ℚ) = n := by
  unfold pyint
  by_cases h : (n : ℚ) < 0
  · rw [if_pos h]
    rw [show (-(n : ℚ)) = ((-n : ℤ) : ℚ) by push_cast; ring, Int.floor_intCast]
    ring
  · rw [if_neg h, Int.floor_intCast]

theorem pyint_of_nonneg {q : ℚ} (h : 0 ≤ q) : pyint q = ⌊q⌋ := by
  unfold pyint
  rw [if_neg (not_lt.mpr h)]

/-! ## Unit-mapping claims -/

/-- C4 counterexample: the write-direction conversion does not use
round-half-up. On the in-range input `{brightness: 50, contrast: 25, hue: 2}`
the claimed formula gives `round(2 * 40 / 100) = round(0.8) = 1`, while the
code's `int((40 * 2) / 100)` truncates to 0. -/
theorem change_video_settings_not_round_half_up :
    (change_video_settings_conv ⟨50, 25, 2⟩).absoluteZoom ≠
      spec_round_half_up ((2 * 40 : ℚ) / 100) := by
  unfold change_video_settings_conv spec_round_half_up pyint
  norm_num

/-- C4 (amended): the write-direction conversion truncates (floor, on these
nonnegative inputs): `elevation = ⌊brightness * 900 / 100⌋ = 9 * brightness`,
`azimuth = ⌊contrast * 3600 / 100⌋ = 36 * contrast`,
`zoom = ⌊hue * 40 / 100⌋`; and the example input
`{brightness: 50, contrast: 25, hue: 100}` yields
`{elevation: 450, azimuth: 900, zoom: 40}`. -/
theorem change_video_settings_formula (b c h : ℤ)
    (hb0 : 0 ≤ b) (hb1 : b ≤ 100) (hc0 : 0 ≤ c) (hc1 : c ≤ 100)
    (hh0 : 0 ≤ h) (hh1 : h ≤ 100) :
    change_video_settings_conv ⟨b, c, h⟩ =
      ⟨⌊(40 * h : ℚ) / 100⌋, 36 * c, 9 * b⟩ ∧
    change_video_settings_conv ⟨50, 25, 100⟩ = ⟨40, 900, 450⟩ := by
  constructor
  · unfold change_video_settings_conv
    have hz : pyint ((40 * (⟨b, c, h⟩ : Telemetry).hue : ℚ) / 100) =
        ⌊(40 * h : ℚ) / 100⌋ := by
      apply pyint_of_nonneg
      positivity
    have ha : ((3600 * (⟨b, c, h⟩ : Telemetry).contrast : ℚ) / 100) =
        ((36 * c : ℤ) : ℚ) := by
      push_cast
      ring
    have he : ((900 * (⟨b, c, h⟩ : Telemetry).brightness : ℚ) / 100) =
        ((9 * b : ℤ) : ℚ) := by
      push_cast
      ring
    rw [PTZData.mk.injEq]
    refine ⟨hz, ?_, ?_⟩
    · rw [ha, pyint_intCast]
    · rw [he, pyint_intCast]
  · unfold change_video_settings_conv pyint
    norm_num

/-- Witness for `change_video_settings_formula` at the concrete in-range
input `{brightness: 50, contrast: 25, hue: 2}`. -/
theorem change_video_settings_formula_witness :
    change_video_settings_conv ⟨50, 25, 2⟩ =
      ⟨⌊(40 * (2 : ℤ) : ℚ) / 100⌋, 36 * 25, 9 * 50⟩ :=
  (change_video_settings_formula 50 25 2 (by norm_num) (by norm_num)
    (by norm_num) (by norm_num) (by norm_num) (by norm_num)).1

/-- C7: the read-direction conversion computes both `brightness` and
`contrast` from the device's `azimuth` field by the same
`⌊azimuth * 100 / 3600⌋` formula, never reads `elevation` (replacing it
changes nothing), and hence always returns `brightness = contrast`. -/
theorem get_video_settings_reads_azimuth_only (r : PTZStatus)
    (h0 : 0 ≤ r.azimuth) (h1 : r.azimuth ≤ 3600) :
    (get_video_settings_conv r).brightness = ⌊(r.azimuth * 100 : ℚ) / 3600⌋ ∧
    (get_video_settings_conv r).contrast = ⌊(r.azimuth * 100 : ℚ) / 3600⌋ ∧
    (get_video_settings_conv r).brightness =
      (get_video_settings_conv r).contrast ∧
    ∀ e2 : ℤ,
      get_video_settings_conv ⟨r.azimuth, e2, r.absoluteZoom⟩ =
        get_video_settings_conv r := by
  have hb : (get_video_settings_conv r).brightness =
      ⌊(r.azimuth * 100 : ℚ) / 3600⌋ := by
    unfold get_video_settings_conv
    rw [show ((100 * r.azimuth : ℚ)) = ((r.azimuth * 100 : ℚ)) by ring]
    apply pyint_of_nonneg
    positivity
  refine ⟨hb, hb, rfl, ?_⟩
  intro e2
  obtain ⟨a, e, z⟩ := r
  rfl

/-- Witness for `get_video_settings_reads_azimuth_only` at the concrete
device status `{azimuth: 1800, elevation: 37, absoluteZoom: 10}`. -/
theorem get_video_settings_reads_azimuth_only_witness :
    (get_video_settings_conv ⟨1800, 37, 10⟩).brightness =
      ⌊((1800 : ℤ) * 100 : ℚ) / 3600⌋ :=
  (get_video_settings_reads_azimuth_only ⟨1800, 37, 10⟩ (by norm_num)
    (by norm_num)).1

/-- C8: for a hue that is a multiple of 5 (so that `hue * 40 / 100` is an
exact integer), writing the telemetry to the device and reading the
resulting device record back reproduces the hue exactly. -/
theorem hue_round_trip (b c h : ℤ) (h0 : 0 ≤ h) (h1 : h ≤ 100)
    (h5 : (5 : ℤ) ∣ h) :
    (get_video_settings_conv
      ⟨(change_video_settings_conv ⟨b, c, h⟩).azimuth,
       (change_video_settings_conv ⟨b, c, h⟩).elevation,
       (change_video_settings_conv ⟨b, c, h⟩).absoluteZoom⟩).hue = h := by
  obtain ⟨k, rfl⟩ := h5
  have hz : (change_video_settings_conv ⟨b, c, 5 * k⟩).absoluteZoom =
      2 * k := by
    unfold change_video_settings_conv
    rw [show ((40 * (⟨b, c, 5 * k⟩ : Telemetry).hue : ℚ) / 100) =
      ((2 * k : ℤ) : ℚ) by push_cast; ring]
    exact pyint_intCast (2 * k)
  unfold get_video_settings_conv
  rw [hz]
  rw [show ((100 * ((2 * k : ℤ) : ℤ) : ℚ) / 40) = ((5 * k : ℤ) : ℚ) by
    push_cast; ring]
  exact pyint_intCast (5 * k)

/-- Witness for `hue_round_trip` at hue 50 (the spec's own example:
hue 50 → zoom 20 → hue 50). -/
theorem hue_round_trip_witness :
    (get_video_settings_conv
      ⟨(change_video_settings_conv ⟨0, 0, 50⟩).azimuth,
       (change_video_settings_conv ⟨0, 0, 50⟩).elevation,
       (change_video_settings_conv ⟨0, 0, 50⟩).absoluteZoom⟩).hue = 50 :=
  hue_round_trip 0 0 50 (by norm_num) (by norm_num) (by norm_num)

/-! ## Probe / snapshot claims -/

/-- C6: a PTZ capability probe that raises `HTTPError` (the client raises it
on an error status) makes `check_ptz_support` return `false` without
raising, the constructor succeeds with `ptz_supported = false`, and with
that flag both PTZ operations issue no device request and return normally
(`get_video_settings` returns the empty dict) for every input. -/
theorem ptz_probe_http_error_noop :
    check_ptz_support (.error .httpError) = .ok false ∧
    (∀ d : String, hikvision_init d (.error .httpError) =
      .ok ⟨d, motion_timeout, 0, false⟩) ∧
    (∀ r : PTZStatus, get_video_settings false r = (none, 0)) ∧
    (∀ o : Telemetry, change_video_settings false o = (none, 0)) :=
  ⟨rfl, fun _ => rfl, fun _ => rfl, fun _ => rfl⟩

/-- C9: `check_ptz_support` catches only `requests.exceptions.HTTPError`;
any other exception (e.g. a connection failure to an unreachable host)
propagates out of the probe and hence out of `__init__`, so no adapter
state is constructed. -/
theorem ptz_probe_other_error_propagates (e : PyExc)
    (he : e ≠ PyExc.httpError) :
    check_ptz_support (.error e) = .error e ∧
    ∀ d : String, hikvision_init d (.error e) = .error e := by
  cases e
  · exact absurd rfl he
  · exact ⟨rfl, fun _ => rfl⟩
  · exact ⟨rfl, fun _ => rfl⟩

/-- Witness for `ptz_probe_other_error_propagates` at a connection error. -/
theorem ptz_probe_other_error_propagates_witness :
    check_ptz_support (.error .connectionError) =
      .error PyExc.connectionError :=
  (ptz_probe_other_error_propagates PyExc.connectionError (by decide)).1

/-- C5 counterexample: a snapshot-fetch failure is not surfaced as
`RetryableError`; the underlying exception (here a connection error)
propagates unchanged out of `get_snapshot`, and that exception is not the
retryable error type. -/
theorem get_snapshot_error_not_retryable :
    (get_snapshot "tmp" (fun _ => []) (.error .connectionError)).result =
      .error PyExc.connectionError ∧
    PyExc.connectionError ≠ PyExc.retryableError :=
  ⟨rfl, by decide⟩

/-- C5 (amended): `get_snapshot` has no exception handler and no retry:
any fetch failure propagates to the caller unchanged (not converted to
`RetryableError`), the filesystem is untouched on failure, and exactly one
request is issued per call in both the failure and the success case. -/
theorem get_snapshot_propagates_single_request
    (dir : String) (fs : String → List ℕ) :
    (∀ e : PyExc,
      (get_snapshot dir fs (.error e)).result = .error e ∧
      (get_snapshot dir fs (.error e)).requests = 1 ∧
      (get_snapshot dir fs (.error e)).fs = fs) ∧
    ∀ chunks : List (List ℕ),
      (get_snapshot dir fs (.ok chunks)).requests = 1 :=
  ⟨fun _ => ⟨rfl, rfl, rfl⟩, fun _ => rfl⟩

/-- C10: every successful `get_snapshot` call returns the fixed path
`snapshot_dir ++ "/screen.jpg"` (no per-call name), and overwrites that
file: the contents after the call are exactly the non-empty response chunks
concatenated, independent of the file's previous contents. -/
theorem get_snapshot_fixed_path_overwrites
    (dir : String) (fs : String → List ℕ) (chunks : List (List ℕ)) :
    (get_snapshot dir fs (.ok chunks)).result = .ok (dir ++ "/screen.jpg") ∧
    (get_snapshot dir fs (.ok chunks)).fs (dir ++ "/screen.jpg") =
      (chunks.filter (fun c => c ≠ [])).flatten := by
  refine ⟨rfl, ?_⟩
  show (if dir ++ "/screen.jpg" = dir ++ "/screen.jpg" then
    (chunks.filter (fun c => c ≠ [])).flatten else fs (dir ++ "/screen.jpg"))
    = (chunks.filter (fun c => c ≠ [])).flatten
  rw [if_pos rfl]

/-! ## Debouncer exception-path and invariant claims -/

/-- C2 counterexample: when the counter is 0 and `trigger_motion_start()`
raises, the increment and the stop-timer scheduling do not happen — the
callback is awaited before either, so the exception propagates first. -/
theorem motion_start_update_not_unconditional :
    ¬ ((trigger_motion_start_exc 0 true).motion_counter = 0 + 1 ∧
       (trigger_motion_start_exc 0 true).timer_scheduled = true) := by
  decide

/-- C2 (amended): in `_trigger_motion_start` the callback is awaited before
the counter update, so when the callback raises (possible only when the
counter is 0) the increment and the timer scheduling are skipped; they do
happen whenever the counter is nonzero or the callback returns normally. In
`_trigger_motion_stop` the decrement-and-clamp precedes the callback, so it
happens regardless of whether `trigger_motion_stop()` raises. -/
theorem motion_callback_exception_state (c : ℤ) (r : Bool)
    (h : c ≠ 0 ∨ r = false) :
    (trigger_motion_start_exc c r).motion_counter = c + 1 ∧
    (trigger_motion_start_exc c r).timer_scheduled = true ∧
    (trigger_motion_start_exc 0 true).motion_counter = 0 ∧
    (trigger_motion_start_exc 0 true).timer_scheduled = false ∧
    ∀ (c2 : ℤ) (r2 : Bool),
      (trigger_motion_stop_exc c2 r2).motion_counter =
        (trigger_motion_stop_exc c2 false).motion_counter := by
  have hstop : ∀ (c2 : ℤ) (r2 : Bool),
      (trigger_motion_stop_exc c2 r2).motion_counter =
        (trigger_motion_stop_exc c2 false).motion_counter := by
    intro c2 r2
    unfold trigger_motion_stop_exc
    split <;> rfl
  have hstart : (trigger_motion_start_exc c r).motion_counter = c + 1 ∧
      (trigger_motion_start_exc c r).timer_scheduled = true := by
    unfold trigger_motion_start_exc
    rcases h with h | h
    · rw [if_neg h]
      exact ⟨rfl, rfl⟩
    · subst h
      by_cases hc : c = 0
      · rw [if_pos hc, if_neg (by simp)]
        exact ⟨rfl, rfl⟩
      · rw [if_neg hc]
        exact ⟨rfl, rfl⟩
  exact ⟨hstart.1, hstart.2, rfl, rfl, hstop⟩

/-- Witness for `motion_callback_exception_state` at counter 1 with a
raising callback. -/
theorem motion_callback_exception_state_witness :
    (trigger_motion_start_exc 1 true).motion_counter = 1 + 1 :=
  (motion_callback_exception_state 1 true (Or.inl (by decide))).1

theorem runSteps_nonneg (l : List MStep) (c : ℤ) (h : 0 ≤ c) :
    0 ≤ runSteps c l := by
  induction l generalizing c with
  | nil => exact h
  | cons s l ih =>
    cases s with
    | inc =>
      exact ih _ (by unfold trigger_motion_start_step; omega)
    | dec =>
      apply ih
      unfold trigger_motion_stop_step
      split <;> omega

/-- C3: under a serialized trace of increment steps (signal processing) and
decrement steps (stop-timer firings) in which every prefix has at least as
many increments as decrements (each decrement matching one earlier
increment), the motion counter is never observed negative: after every
prefix of the trace it is ≥ 0. -/
theorem motion_counter_never_negative (tr : List MStep)
    (hbal : ∀ n : ℕ,
      ((tr.take n).count MStep.dec) ≤ ((tr.take n).count MStep.inc)) :
    ∀ n : ℕ, 0 ≤ runSteps 0 (tr.take n) := by
  intro n
  exact runSteps_nonneg _ 0 le_rfl

/-- Witness for `motion_counter_never_negative` on the trace
[inc, dec]. -/
theorem motion_counter_never_negative_witness :
    0 ≤ runSteps 0 ([MStep.inc, MStep.dec].take 2) := by
  apply motion_counter_never_negative [MStep.inc, MStep.dec]
  intro n
  match n with
  | 0 => decide
  | 1 => decide
  | n + 2 =>
    rw [show [MStep.inc, MStep.dec].take (n + 2) = [MStep.inc, MStep.dec]
      by simp]
    decide

/-! ## The debounce burst property (C1)

A burst of signals, each strictly less than `motion_timeout` after the
previous one, is processed together with the stop-timers those signals
schedule, in any serialization that respects the events' times. The run
fires exactly one `trigger_motion_start` (at the first signal) and exactly
one `trigger_motion_stop` (at the timer scheduled by the last signal,
`motion_timeout` after it). -/

theorem motion_timeout_pos : 0 < motion_timeout := by
  norm_num [motion_timeout]

theorem nsig_cons_sig (t : ℚ) (l : List Ev) :
    nsig (Ev.sig t :: l) = nsig l + 1 := by
  unfold nsig
  rw [List.filterMap_cons_some
    (show sigTime (Ev.sig t) = some t from rfl)]
  simp

theorem nsig_cons_timer (t : ℚ) (l : List Ev) :
    nsig (Ev.timer t :: l) = nsig l := by
  unfold nsig
  rw [List.filterMap_cons_none rfl]

theorem ntim_cons_sig (t : ℚ) (l : List Ev) :
    ntim (Ev.sig t :: l) = ntim l := by
  unfold ntim
  rw [List.filterMap_cons_none rfl]

theorem ntim_cons_timer (t : ℚ) (l : List Ev) :
    ntim (Ev.timer t :: l) = ntim l + 1 := by
  unfold ntim
  rw [List.filterMap_cons_some
    (show timerTime (Ev.timer t) = some t from rfl)]
  simp

theorem nsig_append (p q : List Ev) : nsig (p ++ q) = nsig p + nsig q := by
  unfold nsig
  rw [List.filterMap_append, List.length_append]

theorem ntim_append (p q : List Ev) : ntim (p ++ q) = ntim p + ntim q := by
  unfold ntim
  rw [List.filterMap_append, List.length_append]

theorem nsig_add_ntim (l : List Ev) : nsig l + ntim l = l.length := by
  induction l with
  | nil => rfl
  | cons e l ih =>
    cases e with
    | sig t =>
      rw [nsig_cons_sig, ntim_cons_sig, List.length_cons]
      omega
    | timer t =>
      rw [nsig_cons_timer, ntim_cons_timer, List.length_cons]
      omega

theorem time_of_sigTime {e : Ev} {x : ℚ} (h : sigTime e = some x) :
    e.time = x := by
  cases e with
  | sig t =>
    simp only [sigTime, Option.some.injEq] at h
    simpa [Ev.time] using h
  | timer t => simp [sigTime] at h

theorem time_of_timerTime {e : Ev} {x : ℚ} (h : timerTime e = some x) :
    e.time = x := by
  cases e with
  | timer t =>
    simp only [timerTime, Option.some.injEq] at h
    simpa [Ev.time] using h
  | sig t => simp [timerTime] at h

theorem filterMap_cons_exists {α β : Type} (f : α → Option β) (l : List α)
    (b : β) (r : List β) (h : l.filterMap f = b :: r) :
    ∃ a ∈ l, f a = some b := by
  have : b ∈ l.filterMap f := by
    rw [h]
    exact List.mem_cons_self b r
  exact List.mem_filterMap.mp this

theorem runEv_cons (c : ℤ) (e : Ev) (l : List Ev) :
    runEv c (e :: l) =
      ((runEv (stepEv c e).1 l).1,
        (stepEv c e).2 ++ (runEv (stepEv c e).1 l).2) := rfl

theorem runEv_append (c : ℤ) (p q : List Ev) :
    runEv c (p ++ q) =
      ((runEv (runEv c p).1 q).1,
        (runEv c p).2 ++ (runEv (runEv c p).1 q).2) := by
  induction p generalizing c with
  | nil => simp [runEv]
  | cons e p ih =>
    rw [List.cons_append, runEv_cons, runEv_cons, ih]
    simp [List.append_assoc]

theorem stepEv_sig_zero (t : ℚ) :
    stepEv 0 (Ev.sig t) = (1, [Out.start t]) := by
  simp [stepEv, trigger_motion_start_step]

theorem stepEv_sig_ne (c : ℤ) (t : ℚ) (hc : c ≠ 0) :
    stepEv c (Ev.sig t) = (c + 1, []) := by
  simp [stepEv, trigger_motion_start_step, hc]

theorem stepEv_timer_one (t : ℚ) :
    stepEv 1 (Ev.timer t) = (0, [Out.stop t]) := by
  simp [stepEv, trigger_motion_stop_step]

theorem stepEv_timer_big (c : ℤ) (t : ℚ) (hc : 1 < c) :
    stepEv c (Ev.timer t) = (c - 1, []) := by
  have h1 : trigger_motion_stop_step c = (c - 1, false) := by
    unfold trigger_motion_stop_step
    rw [if_neg (by omega)]
  simp [stepEv, h1]

/-- On a segment of the schedule where every nonempty prefix keeps the
counter strictly positive, the run fires no callback and the counter ends
at `c + nsig l - ntim l`. -/
theorem runEv_quiet (l : List Ev) : ∀ c : ℤ, 0 < c →
    (∀ p q, l = p ++ q → p ≠ [] → (ntim p : ℤ) < c + nsig p) →
    (runEv c l).1 = c + nsig l - ntim l ∧ (runEv c l).2 = [] := by
  induction l with
  | nil =>
    intro c hc hpre
    simp [runEv, nsig, ntim]
  | cons e l ih =>
    intro c hc hpre
    cases e with
    | sig t =>
      have hc0 : c ≠ 0 := by omega
      have hstep := stepEv_sig_ne c t hc0
      have hpre' : ∀ p q, l = p ++ q → p ≠ [] →
          (ntim p : ℤ) < (c + 1) + nsig p := by
        intro p q hl hp
        have := hpre (Ev.sig t :: p) q (by rw [hl, List.cons_append])
          (by simp)
        rw [ntim_cons_sig, nsig_cons_sig] at this
        push_cast at this ⊢
        omega
      obtain ⟨h1, h2⟩ := ih (c + 1) (by omega) hpre'
      rw [runEv_cons, hstep]
      constructor
      · rw [h1, nsig_cons_sig, ntim_cons_sig]
        push_cast
        omega
      · rw [h2]
        rfl
    | timer t =>
      have hbig : 1 < c := by
        have := hpre [Ev.timer t] l rfl (by simp)
        rw [show ntim [Ev.timer t] = 1 from rfl,
          show nsig [Ev.timer t] = 0 from rfl] at this
        push_cast at this
        omega
      have hstep := stepEv_timer_big c t hbig
      have hpre' : ∀ p q, l = p ++ q → p ≠ [] →
          (ntim p : ℤ) < (c - 1) + nsig p := by
        intro p q hl hp
        have := hpre (Ev.timer t :: p) q (by rw [hl, List.cons_append])
          (by simp)
        rw [ntim_cons_timer, nsig_cons_timer] at this
        push_cast at this ⊢
        omega
      obtain ⟨h1, h2⟩ := ih (c - 1) (by omega) hpre'
      rw [runEv_cons, hstep]
      constructor
      · rw [h1, nsig_cons_timer, ntim_cons_timer]
        push_cast
        omega
      · rw [h2]
        rfl

/-- Every nonempty proper prefix of a time-sorted serialization of a burst
contains strictly more signals than stop-timers: the timer scheduled by a
signal fires after the following signal has already arrived (gaps are
strictly below `motion_timeout`), so the counter stays positive inside the
burst. -/
theorem prefix_strict (ts : List ℚ) (es : List Ev)
    (hchain : List.Chain' (fun a b => a < b ∧ b < a + motion_timeout) ts)
    (hsig : es.filterMap sigTime = ts)
    (htim : es.filterMap timerTime =
      ts.map (fun t => t + motion_timeout))
    (hsorted : es.Pairwise (fun a b => a.time ≤ b.time)) :
    ∀ p q, es = p ++ q → p ≠ [] → q ≠ [] → ntim p < nsig p := by
  have hgetcongr : ∀ i j : ℕ, ∀ hi2 : i < ts.length,
      ∀ hj2 : j < ts.length, i = j → ts[i] = ts[j] := by
    intro i j hi2 hj2 h
    subst h
    rfl
  have hcons : ∀ i : ℕ, ∀ hi : i + 1 < ts.length,
      ts[i] < ts[i + 1] ∧ ts[i + 1] < ts[i] + motion_timeout := by
    intro i hi
    have := List.chain'_iff_get.mp hchain i (by omega)
    simpa [List.get_eq_getElem] using this
  have hmono : ∀ i j : ℕ, ∀ hi2 : i < ts.length, ∀ hj2 : j < ts.length,
      i ≤ j → ts[i] ≤ ts[j] := by
    intro i j hi2 hj2 hij
    rcases Nat.lt_or_ge i j with h | h
    · have hlt : ts.Pairwise (fun a b => a < b) :=
        List.chain'_iff_pairwise.mp (hchain.imp (fun a b hab => hab.1))
      exact le_of_lt (List.pairwise_iff_getElem.mp hlt i j hi2 hj2 h)
    · have : i = j := by omega
      exact le_of_eq (hgetcongr i j hi2 hj2 this)
  intro p q hpq hp hq
  subst hpq
  by_contra hcon
  push_neg at hcon
  have hcount_p := nsig_add_ntim p
  have hcount_q := nsig_add_ntim q
  have hN : nsig p + nsig q = ts.length := by
    unfold nsig
    rw [← List.length_append, ← List.filterMap_append, hsig]
  have hNt : ntim p + ntim q = ts.length := by
    unfold ntim
    rw [← List.length_append, ← List.filterMap_append, htim,
      List.length_map]
  have hplen : 0 < p.length := List.length_pos.mpr hp
  have hqlen : 0 < q.length := List.length_pos.mpr hq
  have hk1 : 1 ≤ ntim p := by omega
  have hmN : nsig p < ts.length := by omega
  have htsidx : ntim p - 1 < ts.length := by omega
  -- the (ntim p)-th scheduled timer lies in the prefix p
  have hCtake : (ts.map (fun t => t + motion_timeout)).take (ntim p) =
      p.filterMap timerTime := by
    rw [← htim, List.filterMap_append]
    exact List.take_left _ _
  have hkidx : ntim p - 1 <
      ((ts.map (fun t => t + motion_timeout)).take (ntim p)).length := by
    rw [List.length_take, List.length_map]
    omega
  have hval : ((ts.map (fun t => t + motion_timeout)).take
      (ntim p))[ntim p - 1] = ts[ntim p - 1] + motion_timeout := by
    rw [List.getElem_take, List.getElem_map]
  have hmem0 := List.getElem_mem hkidx
  rw [hval, hCtake] at hmem0
  obtain ⟨evt, hevtp, hevtv⟩ := List.mem_filterMap.mp hmem0
  have hevt_time : evt.time = ts[ntim p - 1] + motion_timeout :=
    time_of_timerTime hevtv
  -- the (nsig p + 1)-th signal lies in the suffix q
  have hBdrop : q.filterMap sigTime = ts.drop (nsig p) := by
    rw [← hsig, List.filterMap_append]
    exact (List.drop_left _ _).symm
  have hdrop_cons : ts.drop (nsig p) = ts[nsig p] :: ts.drop (nsig p + 1) :=
    List.drop_eq_getElem_cons hmN
  have hBcons : q.filterMap sigTime = ts[nsig p] :: ts.drop (nsig p + 1) :=
    by rw [hBdrop, hdrop_cons]
  obtain ⟨ev, hevq, hevv⟩ := filterMap_cons_exists _ _ _ _ hBcons
  have hev_time : ev.time = ts[nsig p] := time_of_sigTime hevv
  -- sortedness puts the timer's time below the signal's time
  rw [List.pairwise_append] at hsorted
  have hle := hsorted.2.2 evt hevtp ev hevq
  rw [hevt_time, hev_time] at hle
  -- but the timing hypotheses force the opposite strict inequality
  rcases Nat.lt_or_ge (nsig p) (ntim p) with hmk | hmk
  · have hm : ts[nsig p] ≤ ts[ntim p - 1] :=
      hmono (nsig p) (ntim p - 1) hmN htsidx (by omega)
    have := motion_timeout_pos
    linarith
  · have heq : nsig p = ntim p := by omega
    have hidx2 : ntim p - 1 + 1 < ts.length := by omega
    have hcons2 := hcons (ntim p - 1) hidx2
    have hieq : ts[nsig p] = ts[ntim p - 1 + 1] :=
      hgetcongr (nsig p) (ntim p - 1 + 1) hmN hidx2 (by omega)
    rw [hieq] at hle
    linarith [hcons2.2]

theorem getLast_append_singleton {α : Type} (l : List α) (a : α)
    (h : l ++ [a] ≠ []) : (l ++ [a]).getLast h = a := by
  simp [List.getLast_append]

theorem getLast_eq_of_eq {α : Type} {l1 l2 : List α} (h : l1 = l2)
    (h1 : l1 ≠ []) (h2 : l2 ≠ []) : l1.getLast h1 = l2.getLast h2 := by
  subst h
  rfl

/-- C1: for a burst of `N ≥ 1` signals, each arriving strictly less than
`motion_timeout` (5 seconds) after the previous one, any serialized
processing order of the signals and of the stop-timers they schedule that
respects the events' times fires exactly one `trigger_motion_start` — at
the first signal, when `motion_counter == 0` — and exactly one
`trigger_motion_stop` — at the stop-timer scheduled by the last signal,
`motion_timeout` after that signal. -/
theorem motion_debounce_burst (ts : List ℚ) (es : List Ev) (hne : ts ≠ [])
    (hchain : List.Chain' (fun a b => a < b ∧ b < a + motion_timeout) ts)
    (hsig : es.filterMap sigTime = ts)
    (htim : es.filterMap timerTime = ts.map (fun t => t + motion_timeout))
    (hsorted : es.Pairwise (fun a b => a.time ≤ b.time)) :
    (runEv 0 es).2 =
      [Out.start (ts.head hne),
       Out.stop (ts.getLast hne + motion_timeout)] := by
  have hstrict := prefix_strict ts es hchain hsig htim hsorted
  have hnsig_es : nsig es = ts.length := by
    unfold nsig
    rw [hsig]
  have hntim_es : ntim es = ts.length := by
    unfold ntim
    rw [htim, List.length_map]
  have hNpos : 0 < ts.length := List.length_pos.mpr hne
  have hMne : ts.map (fun t => t + motion_timeout) ≠ [] := by
    intro h
    rw [← List.length_eq_zero, List.length_map] at h
    omega
  have hesne : es ≠ [] := by
    intro h
    rw [h] at hsig
    exact hne hsig.symm
  obtain ⟨e, rest, hes⟩ := List.exists_cons_of_ne_nil hesne
  -- the first event is the first signal
  have hfirst : e = Ev.sig (ts.head hne) := by
    cases e with
    | sig t =>
      rw [hes, List.filterMap_cons_some
        (show sigTime (Ev.sig t) = some t from rfl)] at hsig
      subst hsig
      rfl
    | timer t =>
      exfalso
      rw [hes, List.filterMap_cons_some
        (show timerTime (Ev.timer t) = some t from rfl)] at htim
      rw [hes, List.filterMap_cons_none
        (show sigTime (Ev.timer t) = none from rfl)] at hsig
      obtain ⟨t0, ts', hts⟩ := List.exists_cons_of_ne_nil hne
      subst hts
      rw [List.map_cons] at htim
      have h1 : t = t0 + motion_timeout := by
        have := htim
        rw [List.cons.injEq] at this
        exact this.1
      obtain ⟨ev, hevr, hevv⟩ := filterMap_cons_exists _ _ _ _ hsig
      have hevt := time_of_sigTime hevv
      rw [hes, List.pairwise_cons] at hsorted
      have hle := hsorted.1 ev hevr
      rw [hevt] at hle
      simp only [Ev.time] at hle
      rw [h1] at hle
      have := motion_timeout_pos
      linarith
  have hrestne : rest ≠ [] := by
    intro h
    rw [hes, h, hfirst] at hntim_es
    simp [ntim, timerTime] at hntim_es
    omega
  obtain ⟨mid, lastEv, hmid⟩ : ∃ mid lastEv, rest = mid ++ [lastEv] :=
    ⟨rest.dropLast, rest.getLast hrestne,
      (List.dropLast_append_getLast hrestne).symm⟩
  -- the last event is the stop-timer scheduled by the last signal
  have hlast : lastEv = Ev.timer (ts.getLast hne + motion_timeout) := by
    have hvalM : (ts.map (fun t => t + motion_timeout)).getLast hMne =
        ts.getLast hne + motion_timeout := by
      rw [List.getLast_map]
    cases lastEv with
    | timer t =>
      rw [hes, hfirst, hmid] at htim
      rw [List.filterMap_cons_none
        (show timerTime (Ev.sig (ts.head hne)) = none from rfl),
        List.filterMap_append,
        show List.filterMap timerTime [Ev.timer t] = [t] from rfl] at htim
      have ht : ts.getLast hne + motion_timeout = t := by
        rw [← hvalM, ← getLast_eq_of_eq htim (by simp) hMne]
        exact getLast_append_singleton _ _ _
      rw [← ht]
    | sig t =>
      exfalso
      rw [hes, hfirst, hmid] at hsig htim
      rw [List.filterMap_cons_some
        (show sigTime (Ev.sig (ts.head hne)) = some (ts.head hne) from rfl),
        List.filterMap_append,
        show List.filterMap sigTime [Ev.sig t] = [t] from rfl] at hsig
      rw [List.filterMap_cons_none
        (show timerTime (Ev.sig (ts.head hne)) = none from rfl),
        List.filterMap_append,
        show List.filterMap timerTime [Ev.sig t] = [] from rfl,
        List.append_nil] at htim
      -- the last scheduled timer lies in mid
      have hmemM : ts.getLast hne + motion_timeout ∈
          List.filterMap timerTime mid := by
        rw [htim, ← hvalM]
        exact List.getLast_mem hMne
      obtain ⟨evt, hevtm, hevtv⟩ := List.mem_filterMap.mp hmemM
      have hevt_time := time_of_timerTime hevtv
      -- the last signal's value is the last element of ts
      have h4 : ((ts.head hne :: List.filterMap sigTime mid) ++ [t])
          = ts := hsig
      have htlast : t = ts.getLast hne := by
        rw [← getLast_eq_of_eq h4 (by simp) hne]
        exact (getLast_append_singleton _ _ _).symm
      -- sortedness: the timer in mid precedes the final signal
      rw [hes, hfirst, hmid, show
        Ev.sig (ts.head hne) :: (mid ++ [Ev.sig t])
          = (Ev.sig (ts.head hne) :: mid) ++ [Ev.sig t] from rfl,
        List.pairwise_append] at hsorted
      have hle := hsorted.2.2 evt (List.mem_cons_of_mem _ hevtm)
        (Ev.sig t) (List.mem_cons_self _ _)
      rw [hevt_time] at hle
      simp only [Ev.time] at hle
      rw [htlast] at hle
      have := motion_timeout_pos
      linarith
  -- counts on the middle segment
  have hcnt1 : nsig mid + 1 = ts.length := by
    rw [hes, hfirst, hmid, hlast] at hnsig_es
    rw [nsig_cons_sig, nsig_append, nsig_cons_timer] at hnsig_es
    simpa [nsig] using hnsig_es
  have hcnt2 : ntim mid + 1 = ts.length := by
    rw [hes, hfirst, hmid, hlast] at hntim_es
    rw [ntim_cons_sig, ntim_append, ntim_cons_timer] at hntim_es
    simpa [ntim] using hntim_es
  -- the middle of the burst is quiet with the counter pinned above 0
  have hquiet := runEv_quiet mid 1 one_pos ?hpre
  case hpre =>
    intro p' q' hm hp'
    have hsplit : es = (Ev.sig (ts.head hne) :: p') ++
        (q' ++ [Ev.timer (ts.getLast hne + motion_timeout)]) := by
      rw [hes, hfirst, hmid, hlast, hm]
      simp
    have hst := hstrict _ _ hsplit (by simp)
      (List.append_ne_nil_of_right_ne_nil _ (by simp))
    rw [ntim_cons_sig, nsig_cons_sig] at hst
    omega
  obtain ⟨h1, h2⟩ := hquiet
  have hc1 : (runEv 1 mid).1 = 1 := by
    rw [h1]
    omega
  -- assemble the run
  rw [hes, hfirst, hmid, hlast, runEv_cons, stepEv_sig_zero]
  rw [runEv_append, h2, hc1, runEv_cons, stepEv_timer_one]
  simp [runEv]

/-- Witness for `motion_debounce_burst`: two signals at times 0 and 4
(gap 4 < 5) with their stop-timers at 5 and 9, processed in time order,
fire exactly `start` at 0 and `stop` at 9. -/
theorem motion_debounce_burst_witness :
    (runEv 0 [Ev.sig 0, Ev.sig 4, Ev.timer 5, Ev.timer 9]).2 =
      [Out.start 0, Out.stop 9] := by
  have h := motion_debounce_burst [0, 4]
    [Ev.sig 0, Ev.sig 4, Ev.timer 5, Ev.timer 9]
    (by simp)
    (by norm_num [List.chain'_cons, List.chain'_singleton, motion_timeout])
    (by rfl)
    (by show ([5, 9] : List ℚ) = [0 + motion_timeout, 4 + motion_timeout]
        norm_num [motion_timeout])
    (by norm_num [List.pairwise_cons, Ev.time])
  rw [h]
  have e1 : ∀ hx : ([0, 4] : List ℚ) ≠ [], ([0, 4] : List ℚ).head hx = 0 :=
    fun hx => rfl
  have e2 : ∀ hx : ([0, 4] : List ℚ) ≠ [],
      ([0, 4] : List ℚ).getLast hx = 4 :=
    fun hx => rfl
  rw [e1, e2]
  norm_num [motion_timeout]

end Hikvision
